import Mathlib

/-!
Shallow embedding of `src/utils/dataset.py` (Recommender-System-with-TF2.0).

Modelling conventions:
* A pandas dataframe is represented column-major: a list of columns, each column a
  list of cells in row order.  A missing cell (NaN) is `none`.
* Real-valued data is modelled over `ℚ`.
* `sklearn.preprocessing.LabelEncoder.fit_transform` maps each value to its index in
  the ascending sorted array of the column's distinct values (numpy `unique` +
  `searchsorted`).
* `sklearn.preprocessing.MinMaxScaler(feature_range=(0,1))` maps `x` to
  `(x - min) / (max - min)`, where a zero data range is replaced by `1`
  (sklearn `_handle_zeros_in_scale`).
* `sklearn.model_selection.train_test_split` draws a random permutation of the row
  indices, takes the first `ceil(n * test_size)` of it as the test rows and the rest
  as the train rows.  The random permutation is passed in as an explicit parameter
  `perm`.
* `numpy` `astype('int32')` truncates toward zero and wraps into the signed 32-bit
  range.
* `pandas.DataFrame.sample(frac=1.)` (a full shuffle) is modelled by an explicit
  permutation parameter applied to the row list.
-/

namespace DatasetPy

/-! ### Feature descriptors (`utils/func.py`, not under `src/`) -/

/-- A dense feature descriptor `{'feat': name}`. -/
structure DenseFeat where
  feat : String
deriving DecidableEq

/-- A sparse feature descriptor `{'feat': name, 'feat_num': n, 'embed_dim': d}`. -/
structure SparseFeat where
  feat : String
  feat_num : Nat
  embed_dim : Nat
deriving DecidableEq

/-- Modelled from the spec: `denseFeature` of `utils/func.py` (that file is not under
`src/`); spec §4.3: `denseFeature(name) -> {feat: name}`. -/
def denseFeature (feat : String) : DenseFeat := ⟨feat⟩

/-- Modelled from the spec: `sparseFeature` of `utils/func.py` (that file is not under
`src/`); spec §4.3:
`sparseFeature(name, cardinality, embed_dim) -> {feat, feat_num, embed_dim}`. -/
def sparseFeature (feat : String) (feat_num : Nat) (embed_dim : Nat) : SparseFeat :=
  ⟨feat, feat_num, embed_dim⟩

/-! ### Shared numeric helpers -/

/-- numpy `astype('int32')`: wrap an integer into the signed 32-bit range. -/
def toInt32 (z : Int) : Int :=
  (z + 2 ^ 31) % 2 ^ 32 - 2 ^ 31

/-- Truncation toward zero of a rational, as a C-style integer cast does. -/
def truncInt (q : Rat) : Int :=
  q.num.tdiv q.den

/-- Select the rows of a column at the given indices (used to materialise a
train/test partition or a shuffle from an index list). -/
def selectRows {α : Type} (idxs : List Nat) (col : List α) : List α :=
  idxs.filterMap (fun i => col[i]?)

/-! ### `create_criteo_dataset` (lines 23-76 of `src/utils/dataset.py`) -/

/-- The raw criteo dataframe after `read_csv`: the `label` column, the 13 dense
columns `I1..I13` and the 26 sparse columns `C1..C26`, column-major.  The model
allows any number of dense/sparse columns; missing cells are `none`. -/
structure CriteoRaw where
  label : List Int
  dense : List (List (Option Rat))
  sparse : List (List (Option String))

/-- `data_df[sparse_features].fillna('-1')` on one column. -/
def fillnaSparse (col : List (Option String)) : List String :=
  col.map (fun x => x.getD "-1")

/-- `data_df[dense_features].fillna(0)` on one column. -/
def fillnaDense (col : List (Option Rat)) : List Rat :=
  col.map (fun x => x.getD 0)

/-- The class array of a fitted `LabelEncoder`: the column's distinct values in
ascending order (numpy `unique`). -/
def leClasses (xs : List String) : List String :=
  List.insertionSort (fun a b => a ≤ b) xs.dedup

/-- Index of the first occurrence of `v` in `l` (numpy `searchsorted` against the
sorted class array, for `v` a member of `l`). -/
def posOf : List String → String → Nat
  | [], _ => 0
  | a :: t, v => if a = v then 0 else posOf t v + 1

/-- `LabelEncoder.transform` of a single value of the column `xs`. -/
def leTransform1 (xs : List String) (v : String) : Nat :=
  posOf (leClasses xs) v

/-- `LabelEncoder().fit_transform` on one column. -/
def leFitTransform (xs : List String) : List Nat :=
  xs.map (leTransform1 xs)

/-- Minimum of a column (`X.min(axis=0)` of sklearn's fit; `0` for an empty column,
which sklearn would reject). -/
def colMin : List Rat → Rat
  | [] => 0
  | x :: r => r.foldl min x

/-- Maximum of a column (`X.max(axis=0)` of sklearn's fit). -/
def colMax : List Rat → Rat
  | [] => 0
  | x :: r => r.foldl max x

/-- The scaling denominator of `MinMaxScaler`: the data range `max - min`, a zero
range being replaced by `1` (sklearn `_handle_zeros_in_scale`). -/
def mmsDenom (xs : List Rat) : Rat :=
  if colMax xs - colMin xs = 0 then 1 else colMax xs - colMin xs

/-- `MinMaxScaler(feature_range=(0, 1)).fit_transform` on one column:
`(x - min) / (max - min)`. -/
def mmsFitTransform (xs : List Rat) : List Rat :=
  xs.map (fun v => (v - colMin xs) / mmsDenom xs)

/-- Number of test rows of `train_test_split`: `ceil(n * test_size)` for a
fractional `test_size`. -/
def nTest (n : Nat) (test_size : Rat) : Nat :=
  (⌈(n : Rat) * test_size⌉).toNat

/-- Test-row indices of `train_test_split`: the first `nTest` entries of the random
permutation `perm` of `0..n-1`. -/
def criteoTestIdx (n : Nat) (test_size : Rat) (perm : List Nat) : List Nat :=
  perm.take (nTest n test_size)

/-- Train-row indices of `train_test_split`: the remaining entries of `perm`. -/
def criteoTrainIdx (n : Nat) (test_size : Rat) (perm : List Nat) : List Nat :=
  perm.drop (nTest n test_size)

/-- The label-encoded sparse columns of the criteo dataframe:
`data_df[feat] = LabelEncoder().fit_transform(data_df[feat])` for each sparse
column, each column encoded independently after `fillna('-1')`. -/
def criteoSparseEncoded (df : CriteoRaw) : List (List Nat) :=
  df.sparse.map (fun c => leFitTransform (fillnaSparse c))

/-- The scaled dense columns of the criteo dataframe: `fillna(0)` then a joint
`MinMaxScaler().fit_transform` (column-wise min-max). -/
def criteoDenseScaled (df : CriteoRaw) : List (List Rat) :=
  df.dense.map (fun c => mmsFitTransform (fillnaDense c))

/-- Result of `create_criteo_dataset`.  `train_dense`/`test_dense` are the
column-major `train[dense_features].values` matrices, `train_sparse`/`test_sparse`
the `train[sparse_features].values.astype('int32')` matrices, `train_y`/`test_y`
the `astype('int32')` label vectors. -/
structure CriteoOut where
  feature_columns : List DenseFeat × List SparseFeat
  train_dense : List (List Rat)
  train_sparse : List (List Int)
  train_y : List Int
  test_dense : List (List Rat)
  test_sparse : List (List Int)
  test_y : List Int

/-- `create_criteo_dataset(file, embed_dim, ..., test_size)` of
`src/utils/dataset.py`, after the file has been parsed into `df` (reading and the
`read_part` truncation are outside the model).  `perm` is the random permutation
drawn by `train_test_split`. -/
def create_criteo_dataset (df : CriteoRaw) (embed_dim : Nat) (test_size : Rat)
    (perm : List Nat) : CriteoOut :=
  let sparseCols := criteoSparseEncoded df
  let denseCols := criteoDenseScaled df
  let fc : List DenseFeat × List SparseFeat :=
    ((List.range df.dense.length).map
       (fun i => denseFeature ("I" ++ toString (i + 1))),
     (List.range df.sparse.length).map
       (fun j => sparseFeature ("C" ++ toString (j + 1))
         ((sparseCols.getD j []).dedup.length) embed_dim))
  let n := df.label.length
  let testIdx := criteoTestIdx n test_size perm
  let trainIdx := criteoTrainIdx n test_size perm
  { feature_columns := fc
    train_dense := denseCols.map (fun c => selectRows trainIdx c)
    train_sparse := sparseCols.map
      (fun c => (selectRows trainIdx c).map (fun (v : Nat) => toInt32 (v : Int)))
    train_y := (selectRows trainIdx df.label).map toInt32
    test_dense := denseCols.map (fun c => selectRows testIdx c)
    test_sparse := sparseCols.map
      (fun c => (selectRows testIdx c).map (fun (v : Nat) => toInt32 (v : Int)))
    test_y := (selectRows testIdx df.label).map toInt32 }

/-! ### `create_explicit_ml_1m_dataset` (lines 79-109 of `src/utils/dataset.py`) -/

/-- One parsed row of the movielens file: `UserId::MovieId::Rating::Timestamp`. -/
structure RatingRow where
  userId : Nat
  movieId : Nat
  rating : Rat
  timestamp : Int
deriving DecidableEq

/-- `data_df.groupby('UserId')['Rating'].transform('mean')`: the mean rating of
user `u`, broadcast to each of that user's rows. -/
def avg_score (rows : List RatingRow) (u : Nat) : Rat :=
  let rs := (rows.filter (fun r => r.userId == u)).map (fun r => r.rating)
  rs.sum / (rs.length : Rat)

/-- `watch_count[u]`: `data_df.groupby('UserId')['MovieId'].agg('count')` at `u`. -/
def watch_count (rows : List RatingRow) (u : Nat) : Nat :=
  (rows.filter (fun r => r.userId == u)).length

/-- `int(0.8 * n)` of the Python source (`0.8 * n` truncated; exact since the
double-rounding of the literal `0.8` never moves `0.8*n` across an integer). -/
def split80 (n : Nat) : Nat :=
  4 * n / 5

/-- `watch_count.index`: the distinct user ids, ascending (pandas `groupby` sorts
its keys). -/
def userIds (rows : List RatingRow) : List Nat :=
  List.insertionSort (fun a b => a ≤ b) (rows.map (fun r => r.userId)).dedup

/-- `data_df[data_df.UserId == u]`: the rows of user `u` in file order, each kept
with its original positional index (the pandas index). -/
def userRows (rows : List RatingRow) (u : Nat) : List (Nat × RatingRow) :=
  rows.enum.filter (fun p => p.2.userId == u)

/-- `data_df[data_df.UserId == u].iloc[int(0.8 * watch_count[u]):]`: the test slice
of user `u`. -/
def testSlice (rows : List RatingRow) (u : Nat) : List (Nat × RatingRow) :=
  (userRows rows u).drop (split80 (watch_count rows u))

/-- `test_df`: the concatenation of the per-user test slices over
`watch_count.index` (with the original index kept, as after `reset_index`). -/
def test_df (rows : List RatingRow) : List (Nat × RatingRow) :=
  (userIds rows).flatMap (fun u => testSlice rows u)

/-- `train_df = data_df.drop(labels=test_df['index'])`: the rows whose original
index is not an index of a test row, in file order. -/
def train_df (rows : List RatingRow) : List (Nat × RatingRow) :=
  rows.enum.filter (fun p => !((test_df rows).map Prod.fst).contains p.1)

/-- `df.sample(frac=1.)`: a full shuffle, modelled by an explicit permutation `σ`
of the positions. -/
def shuffle {α : Type} (σ : List Nat) (xs : List α) : List α :=
  selectRows σ xs

/-- Result of `create_explicit_ml_1m_dataset`.  `train_avg`/`test_avg` are the
`avg_score` vectors (`train_X[0]`), `train_ui`/`test_ui` the
`[['UserId', 'MovieId']].values` matrices (row-major), `train_y`/`test_y` the
`Rating.astype('int32')` vectors. -/
structure RatingOut where
  feature_columns : List DenseFeat × List SparseFeat
  train_avg : List Rat
  train_ui : List (Nat × Nat)
  train_y : List Int
  test_avg : List Rat
  test_ui : List (Nat × Nat)
  test_y : List Int
deriving DecidableEq

/-- `create_explicit_ml_1m_dataset(file, latent_dim, test_size)` of
`src/utils/dataset.py`, after the file has been parsed into `rows`.  The two
`sample(frac=1.)` shuffles are the explicit permutations `st` (train) and `ss`
(test).  The `test_size` argument is accepted, as in the source. -/
def create_explicit_ml_1m_dataset (rows : List RatingRow) (latent_dim : Nat)
    (test_size : Rat) (st ss : List Nat) : RatingOut :=
  let user_num := (rows.map (fun r => r.userId)).foldl max 0 + 1
  let item_num := (rows.map (fun r => r.movieId)).foldl max 0 + 1
  let fc : List DenseFeat × List SparseFeat :=
    ([denseFeature "avg_score"],
     [sparseFeature "user_id" user_num latent_dim,
      sparseFeature "item_id" item_num latent_dim])
  let trainR := shuffle st ((train_df rows).map Prod.snd)
  let testR := shuffle ss ((test_df rows).map Prod.snd)
  { feature_columns := fc
    train_avg := trainR.map (fun r => avg_score rows r.userId)
    train_ui := trainR.map (fun r => (r.userId, r.movieId))
    train_y := trainR.map (fun r => toInt32 (truncInt r.rating))
    test_avg := testR.map (fun r => avg_score rows r.userId)
    test_ui := testR.map (fun r => (r.userId, r.movieId))
    test_y := testR.map (fun r => toInt32 (truncInt r.rating)) }

/-- Modelled from the spec: the split the spec describes for the rating builder
(\"last 20% of each user's chronologically sorted ratings become test data\") —
each user's rows sorted by `Timestamp` before slicing.  The source never performs
this sort; this definition exists only to compare the code against the claim. -/
def chronoTestDf (rows : List RatingRow) : List (Nat × RatingRow) :=
  (userIds rows).flatMap (fun u =>
    (List.insertionSort (fun a b => a.2.timestamp ≤ b.2.timestamp)
        (userRows rows u)).drop
      (split80 (watch_count rows u)))

/-! ### Concrete inputs used by the witnesses and counterexamples -/

/-- A one-row criteo frame whose single sparse cell is missing. -/
def dfC1 : CriteoRaw :=
  { label := [0], dense := [], sparse := [[none]] }

/-- A two-row criteo frame with one non-constant dense column. -/
def dfC2 : CriteoRaw :=
  { label := [0, 1], dense := [[some 1, some 3]], sparse := [] }

/-- A two-row criteo frame for the split-conservation witness. -/
def dfC6 : CriteoRaw :=
  { label := [5, 7], dense := [], sparse := [] }

/-- A two-row criteo frame with a missing sparse cell and a missing dense cell. -/
def dfC7 : CriteoRaw :=
  { label := [0, 1], dense := [[none, some 2]], sparse := [[none, some "-1"]] }

/-- A single rating: one user with exactly one row. -/
def rowsOne : List RatingRow :=
  [⟨1, 10, 5, 100⟩]

/-- One user whose two rows appear in reverse chronological order in the file. -/
def rowsRev : List RatingRow :=
  [⟨1, 10, 5, 200⟩, ⟨1, 20, 3, 100⟩]

/-- Seven ratings: user 1 with five rows, user 2 with two rows. -/
def rowsTwoUsers : List RatingRow :=
  [⟨1, 10, 5, 100⟩, ⟨2, 20, 3, 50⟩, ⟨1, 11, 4, 200⟩, ⟨1, 12, 3, 300⟩,
   ⟨1, 13, 2, 400⟩, ⟨1, 14, 1, 500⟩, ⟨2, 21, 4, 60⟩]

/-! ### General lemmas about the helpers -/

theorem toInt32_eq_self {z : Int} (h0 : 0 ≤ z) (h : z < 2 ^ 31) : toInt32 z = z := by
  unfold toInt32
  rw [Int.emod_eq_of_lt (by omega) (by omega)]
  omega

theorem mem_of_mem_selectRows {α : Type} {idxs : List Nat} {col : List α} {v : α}
    (h : v ∈ selectRows idxs col) : v ∈ col := by
  unfold selectRows at h
  rcases List.mem_filterMap.1 h with ⟨i, _, hi⟩
  exact List.getElem?_mem hi

theorem length_selectRows {α : Type} {idxs : List Nat} {col : List α}
    (h : ∀ i ∈ idxs, i < col.length) : (selectRows idxs col).length = idxs.length := by
  induction idxs with
  | nil => rfl
  | cons i t ih =>
    have hi : i < col.length := h i (List.mem_cons.2 (Or.inl rfl))
    unfold selectRows at *
    rw [List.filterMap_cons, List.getElem?_eq_getElem hi]
    simpa using ih (fun a ha => h a (List.mem_cons.2 (Or.inr ha)))

theorem selectRows_range {α : Type} (xs : List α) :
    selectRows (List.range xs.length) xs = xs := by
  induction xs with
  | nil => rfl
  | cons x t ih =>
    unfold selectRows at *
    rw [List.length_cons, List.range_succ_eq_map, List.filterMap_cons,
      List.getElem?_cons_zero, List.filterMap_map]
    have hc : (fun i => (x :: t)[i]?) ∘ Nat.succ = fun i => t[i]? := by
      funext i
      simp [List.getElem?_cons_succ]
    rw [hc, ih]

theorem shuffle_perm {α : Type} {σ : List Nat} {xs : List α}
    (h : σ.Perm (List.range xs.length)) : (shuffle σ xs).Perm xs := by
  have hp := h.filterMap (fun i => xs[i]?)
  have hr : List.filterMap (fun i => xs[i]?) (List.range xs.length) = xs :=
    selectRows_range xs
  rw [hr] at hp
  exact hp

theorem foldl_min_le_init (l : List Rat) (a : Rat) : l.foldl min a ≤ a := by
  induction l generalizing a with
  | nil => simp
  | cons x t ih => exact le_trans (ih (min a x)) (min_le_left a x)

theorem foldl_min_le_mem {l : List Rat} {x : Rat} (h : x ∈ l) (a : Rat) :
    l.foldl min a ≤ x := by
  induction l generalizing a with
  | nil => cases h
  | cons y t ih =>
    rcases List.mem_cons.1 h with rfl | hx
    · exact le_trans (foldl_min_le_init t (min a x)) (min_le_right a x)
    · exact ih hx (min a y)

theorem init_le_foldl_max (l : List Rat) (a : Rat) : a ≤ l.foldl max a := by
  induction l generalizing a with
  | nil => simp
  | cons x t ih => exact le_trans (le_max_left a x) (ih (max a x))

theorem mem_le_foldl_max {l : List Rat} {x : Rat} (h : x ∈ l) (a : Rat) :
    x ≤ l.foldl max a := by
  induction l generalizing a with
  | nil => cases h
  | cons y t ih =>
    rcases List.mem_cons.1 h with rfl | hx
    · exact le_trans (le_max_right a x) (init_le_foldl_max t (max a x))
    · exact ih hx (max a y)

theorem colMin_le {xs : List Rat} {x : Rat} (h : x ∈ xs) : colMin xs ≤ x := by
  cases xs with
  | nil => cases h
  | cons y t =>
    unfold colMin
    rcases List.mem_cons.1 h with rfl | hx
    · exact foldl_min_le_init t x
    · exact foldl_min_le_mem hx y

theorem le_colMax {xs : List Rat} {x : Rat} (h : x ∈ xs) : x ≤ colMax xs := by
  cases xs with
  | nil => cases h
  | cons y t =>
    unfold colMax
    rcases List.mem_cons.1 h with rfl | hx
    · exact init_le_foldl_max t x
    · exact mem_le_foldl_max hx y

theorem getD_map {α β : Type} (f : α → β) (l : List α) (j : Nat) (a : α) (b : β)
    (h : f a = b) : (l.map f).getD j b = f (l.getD j a) := by
  rcases Nat.lt_or_ge j l.length with hj | hj
  · rw [List.getD_eq_getElem?_getD, List.getD_eq_getElem?_getD, List.getElem?_map,
      List.getElem?_eq_getElem hj]
    simp
  · rw [List.getD_eq_getElem?_getD, List.getD_eq_getElem?_getD,
      List.getElem?_eq_none (by simpa using hj), List.getElem?_eq_none hj]
    simp [h]

theorem nTest_zero (n : Nat) : nTest n 0 = 0 := by
  unfold nTest
  rw [mul_zero]
  simp

/-! ### Lemmas about the label encoder -/

theorem leClasses_perm_dedup (xs : List String) : (leClasses xs).Perm xs.dedup :=
  List.perm_insertionSort _ _

theorem leClasses_nodup (xs : List String) : (leClasses xs).Nodup :=
  (leClasses_perm_dedup xs).nodup_iff.2 (List.nodup_dedup xs)

theorem mem_leClasses {xs : List String} {v : String} : v ∈ leClasses xs ↔ v ∈ xs :=
  (leClasses_perm_dedup xs).mem_iff.trans List.mem_dedup

theorem length_leClasses (xs : List String) :
    (leClasses xs).length = xs.dedup.length :=
  (leClasses_perm_dedup xs).length_eq

theorem leClasses_sorted (xs : List String) :
    List.Sorted (fun a b => a ≤ b) (leClasses xs) :=
  List.sorted_insertionSort _ _

theorem posOf_lt_length {l : List String} {v : String} (h : v ∈ l) :
    posOf l v < l.length := by
  induction l with
  | nil => cases h
  | cons a t ih =>
    unfold posOf
    by_cases hav : a = v
    · simp [hav]
    · rw [if_neg hav, List.length_cons]
      have hvt : v ∈ t := by
        rcases List.mem_cons.1 h with rfl | hvt
        · exact absurd rfl hav
        · exact hvt
      exact Nat.succ_lt_succ (ih hvt)

theorem posOf_sorted_eq_countP {l : List String}
    (hs : List.Sorted (fun a b => a ≤ b) l) (hn : l.Nodup) {v : String} (hv : v ∈ l) :
    posOf l v = l.countP (fun a => decide (a < v)) := by
  induction l with
  | nil => cases hv
  | cons a t ih =>
    rw [List.sorted_cons] at hs
    rw [List.nodup_cons] at hn
    unfold posOf
    rw [List.countP_cons]
    by_cases hav : a = v
    · subst hav
      rw [if_pos rfl]
      have ht : t.countP (fun b => decide (b < a)) = 0 := by
        rw [List.countP_eq_zero]
        intro b hb
        have hab : a ≤ b := hs.1 b hb
        simp only [decide_eq_true_eq]
        exact not_lt_of_le hab
      have hpa : decide (a < a) = false := by simp
      rw [ht, hpa]
      simp
    · rw [if_neg hav]
      have hvt : v ∈ t := by
        rcases List.mem_cons.1 hv with rfl | hvt
        · exact absurd rfl hav
        · exact hvt
      have hva : a < v := lt_of_le_of_ne (hs.1 v hvt) (fun e => hav e)
      have hpa : decide (a < v) = true := by simpa using hva
      rw [ih hs.2 hn.2 hvt, hpa]
      simp

theorem leTransform1_lt {xs : List String} {v : String} (h : v ∈ xs) :
    leTransform1 xs v < xs.dedup.length := by
  rw [← length_leClasses]
  exact posOf_lt_length (mem_leClasses.2 h)

theorem leTransform1_eq_rank {xs : List String} {v : String} (h : v ∈ xs) :
    leTransform1 xs v = xs.dedup.countP (fun a => decide (a < v)) := by
  unfold leTransform1
  rw [posOf_sorted_eq_countP (leClasses_sorted xs) (leClasses_nodup xs)
    (mem_leClasses.2 h)]
  exact (leClasses_perm_dedup xs).countP_eq _

theorem leClasses_eq_of_toFinset_eq {xs ys : List String}
    (h : xs.toFinset = ys.toFinset) : leClasses xs = leClasses ys := by
  have hmem : ∀ a : String, a ∈ xs ↔ a ∈ ys := by
    intro a
    rw [← List.mem_toFinset, ← List.mem_toFinset, h]
  have hperm : xs.dedup.Perm ys.dedup := by
    apply List.perm_of_nodup_nodup_toFinset_eq (List.nodup_dedup xs)
      (List.nodup_dedup ys)
    ext a
    simp only [List.mem_toFinset, List.mem_dedup]
    exact hmem a
  exact List.eq_of_perm_of_sorted
    (((leClasses_perm_dedup xs).trans hperm).trans (leClasses_perm_dedup ys).symm)
    (leClasses_sorted xs) (leClasses_sorted ys)

/-! ### Column access lemmas for the criteo builder -/

theorem selectRows_nil {α : Type} (idxs : List Nat) :
    selectRows idxs ([] : List α) = [] := by
  induction idxs with
  | nil => rfl
  | cons i t ih =>
    unfold selectRows at *
    rw [List.filterMap_cons]
    simpa using ih

theorem criteoSparseEncoded_getD (df : CriteoRaw) (j : Nat) :
    (criteoSparseEncoded df).getD j []
      = leFitTransform (fillnaSparse (df.sparse.getD j [])) := by
  unfold criteoSparseEncoded
  exact getD_map _ _ _ [] [] rfl

theorem train_sparse_getD (df : CriteoRaw) (e : Nat) (t : Rat) (p : List Nat)
    (j : Nat) :
    (create_criteo_dataset df e t p).train_sparse.getD j []
      = (selectRows (criteoTrainIdx df.label.length t p)
          (leFitTransform (fillnaSparse (df.sparse.getD j [])))).map
          (fun (v : Nat) => toInt32 (v : Int)) := by
  show ((criteoSparseEncoded df).map _).getD j [] = _
  unfold criteoSparseEncoded
  rw [List.map_map]
  refine getD_map _ _ _ [] [] ?_
  show (selectRows _ (leFitTransform (fillnaSparse []))).map _ = []
  rw [show leFitTransform (fillnaSparse []) = [] from rfl, selectRows_nil]
  rfl

theorem test_sparse_getD (df : CriteoRaw) (e : Nat) (t : Rat) (p : List Nat)
    (j : Nat) :
    (create_criteo_dataset df e t p).test_sparse.getD j []
      = (selectRows (criteoTestIdx df.label.length t p)
          (leFitTransform (fillnaSparse (df.sparse.getD j [])))).map
          (fun (v : Nat) => toInt32 (v : Int)) := by
  show ((criteoSparseEncoded df).map _).getD j [] = _
  unfold criteoSparseEncoded
  rw [List.map_map]
  refine getD_map _ _ _ [] [] ?_
  show (selectRows _ (leFitTransform (fillnaSparse []))).map _ = []
  rw [show leFitTransform (fillnaSparse []) = [] from rfl, selectRows_nil]
  rfl

theorem train_dense_getD (df : CriteoRaw) (e : Nat) (t : Rat) (p : List Nat)
    (j : Nat) :
    (create_criteo_dataset df e t p).train_dense.getD j []
      = selectRows (criteoTrainIdx df.label.length t p)
          (mmsFitTransform (fillnaDense (df.dense.getD j []))) := by
  show ((criteoDenseScaled df).map _).getD j [] = _
  unfold criteoDenseScaled
  rw [List.map_map]
  refine getD_map _ _ _ [] [] ?_
  show selectRows _ (mmsFitTransform (fillnaDense [])) = []
  rw [show mmsFitTransform (fillnaDense []) = [] from rfl, selectRows_nil]

theorem test_dense_getD (df : CriteoRaw) (e : Nat) (t : Rat) (p : List Nat)
    (j : Nat) :
    (create_criteo_dataset df e t p).test_dense.getD j []
      = selectRows (criteoTestIdx df.label.length t p)
          (mmsFitTransform (fillnaDense (df.dense.getD j []))) := by
  show ((criteoDenseScaled df).map _).getD j [] = _
  unfold criteoDenseScaled
  rw [List.map_map]
  refine getD_map _ _ _ [] [] ?_
  show selectRows _ (mmsFitTransform (fillnaDense [])) = []
  rw [show mmsFitTransform (fillnaDense []) = [] from rfl, selectRows_nil]

/-! ### Claims about `create_criteo_dataset` -/

/-- C1: for the CTR builder, every value of every sparse output column, in the train
partition as well as the test partition, is an integer in the range `[0, d-1]`,
where `d` is the number of distinct values of that column after missing-value
imputation (`d` must fit in the signed 32-bit range the values are cast into); and
the encoding of a column depends only on that column, not on the others. -/
theorem criteo_sparse_range :
    (∀ (df : CriteoRaw) (embed_dim : Nat) (test_size : Rat) (perm : List Nat)
      (j : Nat) (v : Int),
      (fillnaSparse (df.sparse.getD j [])).dedup.length ≤ 2 ^ 31 →
      (v ∈ (create_criteo_dataset df embed_dim test_size perm).train_sparse.getD j []
        ∨ v ∈ (create_criteo_dataset df embed_dim test_size perm).test_sparse.getD j []) →
      0 ≤ v ∧ v < ((fillnaSparse (df.sparse.getD j [])).dedup.length : Int))
    ∧ ∀ (df df' : CriteoRaw) (j : Nat),
        df.sparse.getD j [] = df'.sparse.getD j [] →
        (criteoSparseEncoded df).getD j [] = (criteoSparseEncoded df').getD j [] := by
  constructor
  · intro df embed_dim test_size perm j v hd hv
    have key : ∀ idx : List Nat,
        v ∈ (selectRows idx
            (leFitTransform (fillnaSparse (df.sparse.getD j [])))).map
            (fun (u : Nat) => toInt32 (u : Int)) →
        0 ≤ v ∧ v < ((fillnaSparse (df.sparse.getD j [])).dedup.length : Int) := by
      intro idx hmem
      rcases List.mem_map.1 hmem with ⟨u, hu, rfl⟩
      have hu2 : u ∈ leFitTransform (fillnaSparse (df.sparse.getD j [])) :=
        mem_of_mem_selectRows hu
      unfold leFitTransform at hu2
      rcases List.mem_map.1 hu2 with ⟨x, hx, rfl⟩
      have hlt : leTransform1 (fillnaSparse (df.sparse.getD j [])) x
          < (fillnaSparse (df.sparse.getD j [])).dedup.length := leTransform1_lt hx
      have h31 : ((leTransform1 (fillnaSparse (df.sparse.getD j [])) x : Nat) : Int)
          < 2 ^ 31 := by
        have := lt_of_lt_of_le hlt hd
        omega
      rw [toInt32_eq_self (by omega) h31]
      constructor
      · omega
      · omega
    rcases hv with hv | hv
    · rw [train_sparse_getD] at hv
      exact key _ hv
    · rw [test_sparse_getD] at hv
      exact key _ hv
  · intro df df' j h
    rw [criteoSparseEncoded_getD, criteoSparseEncoded_getD, h]

theorem criteo_sparse_range_witness :
    0 ≤ (0 : Int)
      ∧ (0 : Int) < ((fillnaSparse (dfC1.sparse.getD 0 [])).dedup.length : Int) :=
  criteo_sparse_range.1 dfC1 8 0 [0] 0 0 (by decide)
    (Or.inl (by
      rw [train_sparse_getD]
      simp only [criteoTrainIdx, nTest_zero, List.drop_zero]
      decide))

/-- C9: the encoded id of each raw category of a sparse column equals that
category's 0-based rank in the ascending sorted order of the column's distinct
values (the number of distinct values strictly below it), so the encoding is fully
determined by the set of values in the column, independent of row order. -/
theorem criteo_encoding_is_sorted_rank :
    (∀ xs : List String,
      leFitTransform xs
        = xs.map (fun v => xs.dedup.countP (fun a => decide (a < v))))
    ∧ ∀ xs ys : List String, xs.toFinset = ys.toFinset →
        ∀ v : String, leTransform1 xs v = leTransform1 ys v := by
  constructor
  · intro xs
    unfold leFitTransform
    exact List.map_congr_left (fun v hv => leTransform1_eq_rank hv)
  · intro xs ys h v
    unfold leTransform1
    rw [leClasses_eq_of_toFinset_eq h]

theorem criteo_encoding_is_sorted_rank_witness :
    leTransform1 ["-1"] "-1" = leTransform1 ["-1", "-1"] "-1" :=
  criteo_encoding_is_sorted_rank.2 ["-1"] ["-1", "-1"] (by decide) "-1"

/-- C2: for the CTR builder, every value of a dense output column whose imputed
input values are not all equal lies in the interval `[0, 1]` after min-max scaling,
in the train partition as well as the test partition. -/
theorem criteo_dense_unit_interval :
    ∀ (df : CriteoRaw) (embed_dim : Nat) (test_size : Rat) (perm : List Nat)
      (j : Nat) (v : Rat),
      (∃ a ∈ fillnaDense (df.dense.getD j []),
        ∃ b ∈ fillnaDense (df.dense.getD j []), a ≠ b) →
      (v ∈ (create_criteo_dataset df embed_dim test_size perm).train_dense.getD j []
        ∨ v ∈ (create_criteo_dataset df embed_dim test_size perm).test_dense.getD j []) →
      0 ≤ v ∧ v ≤ 1 := by
  intro df embed_dim test_size perm j v hnc hv
  rcases hnc with ⟨a, ha, b, hb, hab⟩
  have hlt : colMin (fillnaDense (df.dense.getD j []))
      < colMax (fillnaDense (df.dense.getD j [])) := by
    rcases lt_or_le (colMin (fillnaDense (df.dense.getD j [])))
        (colMax (fillnaDense (df.dense.getD j []))) with h | h
    · exact h
    · exfalso
      apply hab
      have ha1 := colMin_le ha
      have ha2 := le_colMax ha
      have hb1 := colMin_le hb
      have hb2 := le_colMax hb
      have : a = colMin (fillnaDense (df.dense.getD j [])) :=
        le_antisymm (le_trans ha2 h) ha1
      have hbeq : b = colMin (fillnaDense (df.dense.getD j [])) :=
        le_antisymm (le_trans hb2 h) hb1
      rw [this, hbeq]
  have hden : mmsDenom (fillnaDense (df.dense.getD j []))
      = colMax (fillnaDense (df.dense.getD j []))
        - colMin (fillnaDense (df.dense.getD j [])) := by
    unfold mmsDenom
    rw [if_neg (by exact sub_ne_zero_of_ne (ne_of_gt hlt))]
  have key : ∀ idx : List Nat,
      v ∈ selectRows idx (mmsFitTransform (fillnaDense (df.dense.getD j []))) →
      0 ≤ v ∧ v ≤ 1 := by
    intro idx hmem
    have hv2 : v ∈ mmsFitTransform (fillnaDense (df.dense.getD j [])) :=
      mem_of_mem_selectRows hmem
    unfold mmsFitTransform at hv2
    rcases List.mem_map.1 hv2 with ⟨x, hx, rfl⟩
    rw [hden]
    have hdpos : (0 : Rat) < colMax (fillnaDense (df.dense.getD j []))
        - colMin (fillnaDense (df.dense.getD j [])) := sub_pos.2 hlt
    constructor
    · exact div_nonneg (sub_nonneg.2 (colMin_le hx)) (le_of_lt hdpos)
    · rw [div_le_one hdpos]
      exact sub_le_sub_right (le_colMax hx) _
  rcases hv with hv | hv
  · rw [train_dense_getD] at hv
    exact key _ hv
  · rw [test_dense_getD] at hv
    exact key _ hv

theorem criteo_dense_unit_interval_witness : 0 ≤ (0 : Rat) ∧ (0 : Rat) ≤ 1 :=
  criteo_dense_unit_interval dfC2 8 0 [0, 1] 0 0
    ⟨1, by norm_num [fillnaDense, dfC2], 3, by norm_num [fillnaDense, dfC2],
      by norm_num⟩
    (Or.inl (by
      rw [train_dense_getD]
      simp only [criteoTrainIdx, nTest_zero, List.drop_zero]
      norm_num [dfC2, selectRows, mmsFitTransform, mmsDenom, colMin, colMax,
        fillnaDense, List.filterMap_cons]))

/-- C6: the train/test split of the CTR builder conserves and partitions the rows:
train row count plus test row count equals the total row count, and no row index is
in both partitions. -/
theorem criteo_split_conserves_rows :
    ∀ (df : CriteoRaw) (embed_dim : Nat) (test_size : Rat) (perm : List Nat),
      perm.Perm (List.range df.label.length) →
      (create_criteo_dataset df embed_dim test_size perm).train_y.length
          + (create_criteo_dataset df embed_dim test_size perm).test_y.length
          = df.label.length
        ∧ ∀ i ∈ criteoTrainIdx df.label.length test_size perm,
            i ∉ criteoTestIdx df.label.length test_size perm := by
  intro df embed_dim test_size perm hperm
  have hlen : perm.length = df.label.length := by
    have := hperm.length_eq
    simpa using this
  have hb : ∀ i ∈ perm, i < df.label.length := by
    intro i hi
    have : i ∈ List.range df.label.length := hperm.mem_iff.1 hi
    exact List.mem_range.1 this
  constructor
  · show ((selectRows (criteoTrainIdx df.label.length test_size perm)
        df.label).map toInt32).length
      + ((selectRows (criteoTestIdx df.label.length test_size perm)
        df.label).map toInt32).length = df.label.length
    rw [List.length_map, List.length_map]
    unfold criteoTrainIdx criteoTestIdx
    rw [length_selectRows (fun i hi => hb i
      (List.Sublist.subset (List.drop_sublist _ _) hi))]
    rw [length_selectRows (fun i hi => hb i
      (List.Sublist.subset (List.take_sublist _ _) hi))]
    rw [List.length_drop, List.length_take, hlen]
    omega
  · have hnd : perm.Nodup := hperm.nodup_iff.2 (List.nodup_range _)
    have hsplit := List.take_append_drop (nTest df.label.length test_size) perm
    rw [← hsplit] at hnd
    rcases List.nodup_append.1 hnd with ⟨_, _, hdisj⟩
    intro i hi hmem
    exact hdisj hmem hi

theorem criteo_split_conserves_rows_witness :
    (create_criteo_dataset dfC6 8 (1 / 2) [1, 0]).train_y.length
        + (create_criteo_dataset dfC6 8 (1 / 2) [1, 0]).test_y.length
        = dfC6.label.length
      ∧ ∀ i ∈ criteoTrainIdx dfC6.label.length (1 / 2) [1, 0],
          i ∉ criteoTestIdx dfC6.label.length (1 / 2) [1, 0] :=
  criteo_split_conserves_rows dfC6 8 (1 / 2) [1, 0] (by decide)

/-- C7: every missing value of a sparse column is imputed with the sentinel
category "-1" before encoding, so an originally missing cell receives exactly the
encoded id that the encoder assigns to "-1" in that column; every missing value of
a dense column is imputed with 0 before scaling. -/
theorem criteo_missing_value_policy :
    ∀ (df : CriteoRaw) (j i : Nat),
      ((df.sparse.getD j [])[i]? = some none →
        (fillnaSparse (df.sparse.getD j []))[i]? = some "-1"
          ∧ ((criteoSparseEncoded df).getD j [])[i]?
            = some (leTransform1 (fillnaSparse (df.sparse.getD j [])) "-1"))
      ∧ ((df.dense.getD j [])[i]? = some none →
          (fillnaDense (df.dense.getD j []))[i]? = some 0) := by
  intro df j i
  constructor
  · intro h
    have h1 : (fillnaSparse (df.sparse.getD j []))[i]? = some "-1" := by
      unfold fillnaSparse
      rw [List.getElem?_map, h]
      rfl
    refine ⟨h1, ?_⟩
    rw [criteoSparseEncoded_getD]
    unfold leFitTransform
    rw [List.getElem?_map, h1]
    rfl
  · intro h
    unfold fillnaDense
    rw [List.getElem?_map, h]
    rfl

theorem criteo_missing_value_policy_witness :
    ((fillnaSparse (dfC7.sparse.getD 0 []))[0]? = some "-1"
      ∧ ((criteoSparseEncoded dfC7).getD 0 [])[0]?
        = some (leTransform1 (fillnaSparse (dfC7.sparse.getD 0 [])) "-1"))
    ∧ (fillnaDense (dfC7.dense.getD 0 []))[0]? = some 0 :=
  ⟨(criteo_missing_value_policy dfC7 0 0).1 (by decide),
    (criteo_missing_value_policy dfC7 0 0).2 (by decide)⟩

/-! ### Lemmas about the rating builder's per-user split -/

theorem enum_fst_inj {α : Type} {l : List α} {p q : Nat × α}
    (hp : p ∈ l.enum) (hq : q ∈ l.enum) (h : p.1 = q.1) : p = q := by
  rw [List.mem_enum_iff_getElem?] at hp hq
  rcases p with ⟨i, a⟩
  rcases q with ⟨j, b⟩
  simp only at h
  subst h
  simp only at hp hq
  rw [hp] at hq
  cases hq
  rfl

theorem userRows_sublist (rows : List RatingRow) (u : Nat) :
    (userRows rows u).Sublist rows.enum :=
  List.filter_sublist _

theorem mem_userRows_userId {rows : List RatingRow} {u : Nat} {p : Nat × RatingRow}
    (h : p ∈ userRows rows u) : p.2.userId = u := by
  unfold userRows at h
  have := (List.mem_filter.1 h).2
  simpa using this

theorem userRows_length (rows : List RatingRow) (u : Nat) :
    (userRows rows u).length = watch_count rows u := by
  unfold userRows watch_count
  rw [← List.countP_eq_length_filter, ← List.countP_eq_length_filter]
  conv_rhs => rw [← List.enum_map_snd rows]
  rw [List.countP_map]
  rfl

theorem testSlice_sublist_userRows (rows : List RatingRow) (u : Nat) :
    (testSlice rows u).Sublist (userRows rows u) :=
  List.drop_sublist _ _

theorem testSlice_length (rows : List RatingRow) (u : Nat) :
    (testSlice rows u).length
      = watch_count rows u - split80 (watch_count rows u) := by
  unfold testSlice
  rw [List.length_drop, userRows_length]

theorem split80_le (n : Nat) : split80 n ≤ n := by
  unfold split80
  omega

theorem watch_count_pos_iff {rows : List RatingRow} {u : Nat} :
    0 < watch_count rows u ↔ ∃ r ∈ rows, r.userId = u := by
  unfold watch_count
  rw [← List.countP_eq_length_filter, List.countP_pos]
  simp

theorem mem_userIds_iff {rows : List RatingRow} {u : Nat} :
    u ∈ userIds rows ↔ 0 < watch_count rows u := by
  unfold userIds
  rw [(List.perm_insertionSort _ _).mem_iff, List.mem_dedup, List.mem_map,
    watch_count_pos_iff]

theorem userIds_nodup (rows : List RatingRow) : (userIds rows).Nodup :=
  (List.perm_insertionSort _ _).nodup_iff.2 (List.nodup_dedup _)

theorem countP_flatMap {α β : Type} (p : β → Bool) (f : α → List β) (l : List α) :
    (l.flatMap f).countP p = (l.map (fun a => (f a).countP p)).sum := by
  induction l with
  | nil => rfl
  | cons a t ih =>
    rw [List.flatMap_cons, List.countP_append, List.map_cons, List.sum_cons, ih]

theorem sum_map_eq_single {α : Type} (g : α → Nat) {l : List α} {u : α}
    (hn : l.Nodup) (hu : u ∈ l) (hz : ∀ v ∈ l, v ≠ u → g v = 0) :
    (l.map g).sum = g u := by
  induction l with
  | nil => cases hu
  | cons a t ih =>
    rw [List.nodup_cons] at hn
    rw [List.map_cons, List.sum_cons]
    rcases List.mem_cons.1 hu with rfl | hut
    · have hz' : (t.map g).sum = 0 := by
        apply List.sum_eq_zero
        intro x hx
        rcases List.mem_map.1 hx with ⟨v, hv, rfl⟩
        exact hz v (List.mem_cons.2 (Or.inr hv)) (fun e => hn.1 (e ▸ hv))
      rw [hz']
      omega
    · have ha : g a = 0 :=
        hz a (List.mem_cons.2 (Or.inl rfl)) (fun e => hn.1 (e ▸ hut))
      rw [ha,
        ih hn.2 hut (fun v hv hne => hz v (List.mem_cons.2 (Or.inr hv)) hne)]
      omega

theorem countP_testSlice_self (rows : List RatingRow) (u : Nat) :
    (testSlice rows u).countP (fun p => p.2.userId == u)
      = (testSlice rows u).length := by
  rw [List.countP_eq_length]
  intro p hp
  have h := mem_userRows_userId ((testSlice_sublist_userRows rows u).subset hp)
  simp [h]

theorem countP_testSlice_other {rows : List RatingRow} {u v : Nat} (h : v ≠ u) :
    (testSlice rows v).countP (fun p => p.2.userId == u) = 0 := by
  rw [List.countP_eq_zero]
  intro p hp
  have hv := mem_userRows_userId ((testSlice_sublist_userRows rows v).subset hp)
  simp only [hv, beq_iff_eq]
  exact h

theorem countP_test_df (rows : List RatingRow) (u : Nat)
    (hu : 0 < watch_count rows u) :
    (test_df rows).countP (fun p => p.2.userId == u)
      = watch_count rows u - split80 (watch_count rows u) := by
  unfold test_df
  rw [countP_flatMap,
    sum_map_eq_single _ (userIds_nodup rows) (mem_userIds_iff.2 hu)
      (fun v _ hne => countP_testSlice_other hne),
    countP_testSlice_self, testSlice_length]

theorem testSlice_sublist_enum (rows : List RatingRow) (u : Nat) :
    (testSlice rows u).Sublist rows.enum :=
  (testSlice_sublist_userRows rows u).trans (userRows_sublist rows u)

theorem userRows_idx_nodup (rows : List RatingRow) (u : Nat) :
    ((userRows rows u).map Prod.fst).Nodup := by
  have hsub := (userRows_sublist rows u).map Prod.fst
  rw [List.enum_map_fst] at hsub
  exact hsub.nodup (List.nodup_range _)

theorem mem_test_idx_iff {rows : List RatingRow} {i : Nat} {r : RatingRow}
    (hmem : (i, r) ∈ rows.enum) :
    i ∈ (test_df rows).map Prod.fst ↔ (i, r) ∈ testSlice rows r.userId := by
  constructor
  · intro hi
    rcases List.mem_map.1 hi with ⟨q, hq, hq1⟩
    unfold test_df at hq
    rcases List.mem_flatMap.1 hq with ⟨v, _, hqs⟩
    have hqe : q ∈ rows.enum := (testSlice_sublist_enum rows v).subset hqs
    have hqv : q.2.userId = v :=
      mem_userRows_userId ((testSlice_sublist_userRows rows v).subset hqs)
    have heq : q = (i, r) := enum_fst_inj hqe hmem hq1
    subst heq
    have hqv2 : r.userId = v := hqv
    rw [← hqv2] at hqs
    exact hqs
  · intro hs
    have hwc : 0 < watch_count rows r.userId := by
      rw [← userRows_length]
      exact List.length_pos_of_mem ((testSlice_sublist_userRows _ _).subset hs)
    apply List.mem_map.2
    refine ⟨(i, r), ?_, rfl⟩
    unfold test_df
    exact List.mem_flatMap.2 ⟨r.userId, mem_userIds_iff.2 hwc, hs⟩

theorem countP_train_df (rows : List RatingRow) (u : Nat) :
    (train_df rows).countP (fun p => p.2.userId == u)
      = split80 (watch_count rows u) := by
  have h1 : (train_df rows).countP (fun p => p.2.userId == u)
      = (userRows rows u).countP
          (fun p => !((test_df rows).map Prod.fst).contains p.1) := by
    unfold train_df userRows
    rw [List.countP_filter, List.countP_filter]
    apply List.countP_congr
    intro x _
    simp only [Bool.and_eq_true]
    exact and_comm
  have hsplit : userRows rows u
      = (userRows rows u).take (split80 (watch_count rows u))
        ++ testSlice rows u := by
    unfold testSlice
    rw [List.take_append_drop]
  have hdrop : (testSlice rows u).countP
      (fun p => !((test_df rows).map Prod.fst).contains p.1) = 0 := by
    rw [List.countP_eq_zero]
    intro p hp
    have hpu : p.2.userId = u :=
      mem_userRows_userId ((testSlice_sublist_userRows _ _).subset hp)
    have hpe : p ∈ rows.enum := (testSlice_sublist_enum rows u).subset hp
    have hT : p.1 ∈ (test_df rows).map Prod.fst := by
      apply (mem_test_idx_iff hpe).2
      rw [hpu]
      exact hp
    have hc : ((test_df rows).map Prod.fst).contains p.1 = true :=
      List.elem_iff.2 hT
    rw [hc]
    simp
  have hall : ∀ p ∈ (userRows rows u).take (split80 (watch_count rows u)),
      (!((test_df rows).map Prod.fst).contains p.1) = true := by
    intro p hp
    have hpe : p ∈ rows.enum :=
      (userRows_sublist _ _).subset ((List.take_sublist _ _).subset hp)
    have hpu : p.2.userId = u :=
      mem_userRows_userId ((List.take_sublist _ _).subset hp)
    simp only [Bool.not_eq_true']
    rw [← Bool.not_eq_true]
    intro hc
    have hc2 : p.1 ∈ (test_df rows).map Prod.fst := List.elem_iff.1 hc
    have hts : p ∈ testSlice rows u := by
      have := (mem_test_idx_iff hpe).1 hc2
      rwa [hpu] at this
    have hnd := userRows_idx_nodup rows u
    rw [hsplit, List.map_append, List.nodup_append] at hnd
    exact hnd.2.2 (List.mem_map_of_mem _ hp) (List.mem_map_of_mem _ hts)
  have htake : ((userRows rows u).take (split80 (watch_count rows u))).countP
      (fun p => !((test_df rows).map Prod.fst).contains p.1)
      = split80 (watch_count rows u) := by
    rw [List.countP_eq_length.2 hall, List.length_take, userRows_length]
    exact min_eq_left (split80_le _)
  rw [h1]
  conv_lhs => rw [hsplit]
  rw [List.countP_append, hdrop, htake]
  omega

theorem test_idx_nodup (rows : List RatingRow) :
    ((test_df rows).map Prod.fst).Nodup := by
  unfold test_df
  rw [List.map_flatMap]
  have hgen : ∀ l : List Nat, l.Nodup →
      (l.flatMap (fun u => (testSlice rows u).map Prod.fst)).Nodup := by
    intro l hl
    induction l with
    | nil => exact List.nodup_nil
    | cons a t ih =>
      rw [List.nodup_cons] at hl
      rw [List.flatMap_cons]
      apply List.Nodup.append
      · exact ((testSlice_sublist_userRows rows a).map _).nodup
          (userRows_idx_nodup rows a)
      · exact ih hl.2
      · intro i hia hit
        rcases List.mem_map.1 hia with ⟨p, hp, rfl⟩
        rcases List.mem_flatMap.1 hit with ⟨v, hvt, hiv⟩
        rcases List.mem_map.1 hiv with ⟨q, hq, hqi⟩
        have hpe : p ∈ rows.enum := (testSlice_sublist_enum rows a).subset hp
        have hqe : q ∈ rows.enum := (testSlice_sublist_enum rows v).subset hq
        have heq : q = p := enum_fst_inj hqe hpe hqi
        have hpa : p.2.userId = a :=
          mem_userRows_userId ((testSlice_sublist_userRows rows a).subset hp)
        have hqv : q.2.userId = v :=
          mem_userRows_userId ((testSlice_sublist_userRows rows v).subset hq)
        apply hl.1
        have hav : a = v := by
          rw [← hpa, ← hqv, heq]
        rwa [hav]
  exact hgen (userIds rows) (userIds_nodup rows)

theorem test_idx_lt (rows : List RatingRow) :
    ∀ i ∈ (test_df rows).map Prod.fst, i < rows.length := by
  intro i hi
  rcases List.mem_map.1 hi with ⟨p, hp, rfl⟩
  unfold test_df at hp
  rcases List.mem_flatMap.1 hp with ⟨v, _, hps⟩
  have hpe : p ∈ rows.enum := (testSlice_sublist_enum rows v).subset hps
  have hmem : p.1 ∈ rows.enum.map Prod.fst := List.mem_map_of_mem _ hpe
  rw [List.enum_map_fst] at hmem
  exact List.mem_range.1 hmem

theorem countP_mem_enum {α : Type} (l : List α) (T : List Nat) (hn : T.Nodup)
    (hs : ∀ i ∈ T, i < l.length) :
    l.enum.countP (fun p => T.contains p.1) = T.length := by
  have h1 : l.enum.countP (fun p => T.contains p.1)
      = (List.range l.length).countP (fun i => T.contains i) := by
    rw [← List.enum_map_fst l, List.countP_map]
    rfl
  rw [h1, List.countP_eq_length_filter]
  have hperm : ((List.range l.length).filter (fun i => T.contains i)).Perm T := by
    apply List.perm_of_nodup_nodup_toFinset_eq
    · exact (List.filter_sublist _).nodup (List.nodup_range _)
    · exact hn
    · ext i
      simp only [List.mem_toFinset, List.mem_filter, List.mem_range]
      constructor
      · rintro ⟨-, hc⟩
        exact List.elem_iff.1 hc
      · intro hi
        exact ⟨hs i hi, List.elem_iff.2 hi⟩
  exact hperm.length_eq

theorem train_test_lengths (rows : List RatingRow) :
    (train_df rows).length + (test_df rows).length = rows.length := by
  have hc := countP_mem_enum rows ((test_df rows).map Prod.fst)
    (test_idx_nodup rows) (test_idx_lt rows)
  have hsum := List.length_eq_countP_add_countP
    (fun p : Nat × RatingRow => ((test_df rows).map Prod.fst).contains p.1)
    rows.enum
  have htr : (train_df rows).length
      = rows.enum.countP
          (fun p => !((test_df rows).map Prod.fst).contains p.1) := by
    unfold train_df
    rw [← List.countP_eq_length_filter]
  have hpred : rows.enum.countP
        (fun p => !((test_df rows).map Prod.fst).contains p.1)
      = rows.enum.countP (fun p =>
          decide ¬((test_df rows).map Prod.fst).contains p.1 = true) := by
    apply List.countP_congr
    intro x _
    simp
  have hT : ((test_df rows).map Prod.fst).length = (test_df rows).length := by
    rw [List.length_map]
  rw [htr, hpred]
  rw [List.enum_length] at hsum
  omega

theorem mem_train_idx_iff (rows : List RatingRow) {i : Nat} (hi : i < rows.length) :
    i ∈ (train_df rows).map Prod.fst ↔ i ∉ (test_df rows).map Prod.fst := by
  constructor
  · intro h hT
    rcases List.mem_map.1 h with ⟨p, hp, rfl⟩
    unfold train_df at hp
    have hb := (List.mem_filter.1 hp).2
    simp only [Bool.not_eq_true'] at hb
    rw [← Bool.not_eq_true] at hb
    exact hb (List.elem_iff.2 hT)
  · intro hT
    apply List.mem_map.2
    refine ⟨(i, rows[i]), ?_, rfl⟩
    unfold train_df
    apply List.mem_filter.2
    constructor
    · apply List.mem_enum_iff_getElem?.2
      exact List.getElem?_eq_getElem hi
    · simp only [Bool.not_eq_true']
      rw [← Bool.not_eq_true]
      intro hc
      exact hT (List.elem_iff.1 hc)

/-! ### Lemmas about the rating builder's outputs -/

theorem countP_shuffled_users (u : Nat) {σ : List Nat} {l : List (Nat × RatingRow)}
    (hσ : σ.Perm (List.range l.length)) :
    ((shuffle σ (l.map Prod.snd)).map (fun r => (r.userId, r.movieId))).countP
        (fun q => q.1 == u)
      = l.countP (fun p => p.2.userId == u) := by
  rw [List.countP_map]
  have hσ2 : σ.Perm (List.range (l.map Prod.snd).length) := by
    rwa [List.length_map]
  rw [(shuffle_perm hσ2).countP_eq, List.countP_map]
  rfl

theorem rating_builder_counts (rows : List RatingRow) (latent_dim : Nat)
    (test_size : Rat) (st ss : List Nat) (u : Nat)
    (hst : st.Perm (List.range (train_df rows).length))
    (hss : ss.Perm (List.range (test_df rows).length))
    (hu : 0 < watch_count rows u) :
    (create_explicit_ml_1m_dataset rows latent_dim test_size st ss).test_ui.countP
        (fun q => q.1 == u)
      = watch_count rows u - split80 (watch_count rows u)
    ∧ (create_explicit_ml_1m_dataset rows latent_dim test_size st ss).train_ui.countP
        (fun q => q.1 == u)
      = split80 (watch_count rows u) := by
  constructor
  · show ((shuffle ss ((test_df rows).map Prod.snd)).map
        (fun r => (r.userId, r.movieId))).countP (fun q => q.1 == u) = _
    rw [countP_shuffled_users u hss]
    exact countP_test_df rows u hu
  · show ((shuffle st ((train_df rows).map Prod.snd)).map
        (fun r => (r.userId, r.movieId))).countP (fun q => q.1 == u) = _
    rw [countP_shuffled_users u hst]
    exact countP_train_df rows u

theorem rating_builder_lengths (rows : List RatingRow) (latent_dim : Nat)
    (test_size : Rat) (st ss : List Nat)
    (hst : st.Perm (List.range (train_df rows).length))
    (hss : ss.Perm (List.range (test_df rows).length)) :
    (create_explicit_ml_1m_dataset rows latent_dim test_size st ss).train_y.length
      = (train_df rows).length
    ∧ (create_explicit_ml_1m_dataset rows latent_dim test_size st ss).test_y.length
      = (test_df rows).length := by
  constructor
  · show ((shuffle st ((train_df rows).map Prod.snd)).map _).length = _
    have hst2 : st.Perm (List.range ((train_df rows).map Prod.snd).length) := by
      rwa [List.length_map]
    rw [List.length_map, (shuffle_perm hst2).length_eq, List.length_map]
  · show ((shuffle ss ((test_df rows).map Prod.snd)).map _).length = _
    have hss2 : ss.Perm (List.range ((test_df rows).map Prod.snd).length) := by
      rwa [List.length_map]
    rw [List.length_map, (shuffle_perm hss2).length_eq, List.length_map]

/-! ### Claims about `create_explicit_ml_1m_dataset` -/

/-- C3: for the rating builder, every user present in the input contributes exactly
`watch_count - floor(0.8 * watch_count)` rows to the test partition and the
remaining `floor(0.8 * watch_count)` rows to the train partition. -/
theorem rating_per_user_split_counts :
    ∀ (rows : List RatingRow) (latent_dim : Nat) (test_size : Rat)
      (st ss : List Nat) (u : Nat),
      st.Perm (List.range (train_df rows).length) →
      ss.Perm (List.range (test_df rows).length) →
      0 < watch_count rows u →
      (create_explicit_ml_1m_dataset rows latent_dim test_size st ss).test_ui.countP
          (fun q => q.1 == u)
        = watch_count rows u - split80 (watch_count rows u)
      ∧ (create_explicit_ml_1m_dataset rows latent_dim test_size st ss).train_ui.countP
          (fun q => q.1 == u)
        = split80 (watch_count rows u) :=
  fun rows latent_dim test_size st ss u hst hss hu =>
    rating_builder_counts rows latent_dim test_size st ss u hst hss hu

theorem rating_per_user_split_counts_witness :
    (create_explicit_ml_1m_dataset rowsTwoUsers 4 (1 / 5) [0, 1, 2, 3, 4]
        [0, 1]).test_ui.countP (fun q => q.1 == 1)
      = watch_count rowsTwoUsers 1 - split80 (watch_count rowsTwoUsers 1)
    ∧ (create_explicit_ml_1m_dataset rowsTwoUsers 4 (1 / 5) [0, 1, 2, 3, 4]
        [0, 1]).train_ui.countP (fun q => q.1 == 1)
      = split80 (watch_count rowsTwoUsers 1) :=
  rating_per_user_split_counts rowsTwoUsers 4 (1 / 5) [0, 1, 2, 3, 4] [0, 1] 1
    (by decide) (by decide) (by decide)

/-- C4 counterexample: the claim "a user with exactly 1 input row contributes zero
rows to the test partition" is false: for a single-row input, that user's single
row lands in the test partition (its count there is 1, not 0). -/
theorem rating_single_row_user_cex :
    watch_count rowsOne 1 = 1
    ∧ ¬ (create_explicit_ml_1m_dataset rowsOne 4 (1 / 5) [] [0]).test_ui.countP
          (fun q => q.1 == 1) = 0 := by
  constructor
  · decide
  · decide

/-- C4 (amended): a user with exactly 1 input row contributes that single row to
the test partition — the user's test count is 1 and train count is 0 (since
`int(0.8 * 1) = 0`, the slice `iloc[0:]` is the whole group). -/
theorem rating_single_row_user_all_test :
    ∀ (rows : List RatingRow) (latent_dim : Nat) (test_size : Rat)
      (st ss : List Nat) (u : Nat),
      st.Perm (List.range (train_df rows).length) →
      ss.Perm (List.range (test_df rows).length) →
      watch_count rows u = 1 →
      (create_explicit_ml_1m_dataset rows latent_dim test_size st ss).test_ui.countP
          (fun q => q.1 == u) = 1
      ∧ (create_explicit_ml_1m_dataset rows latent_dim test_size st ss).train_ui.countP
          (fun q => q.1 == u) = 0 := by
  intro rows latent_dim test_size st ss u hst hss hwc
  have h := rating_builder_counts rows latent_dim test_size st ss u hst hss
    (by omega)
  rw [hwc] at h
  exact h

theorem rating_single_row_user_all_test_witness :
    (create_explicit_ml_1m_dataset rowsOne 4 (1 / 5) [] [0]).test_ui.countP
        (fun q => q.1 == 1) = 1
    ∧ (create_explicit_ml_1m_dataset rowsOne 4 (1 / 5) [] [0]).train_ui.countP
        (fun q => q.1 == 1) = 0 :=
  rating_single_row_user_all_test rowsOne 4 (1 / 5) [] [0] 1 (by decide)
    (by decide) (by decide)

/-- C5: the code does not sort a user's rows chronologically before slicing — on a
file whose rows are in reverse chronological order, the test partition holds the
last rows in FILE order (here the chronologically first rating, timestamp 100),
while the split described by the claim (slice after sorting by timestamp, modelled
by `chronoTestDf`) would hold the chronologically last rating (timestamp 200). -/
theorem rating_split_not_time_ordered :
    (test_df rowsRev).map (fun p => p.2.timestamp) = [100]
    ∧ (chronoTestDf rowsRev).map (fun p => p.2.timestamp) = [200]
    ∧ test_df rowsRev ≠ chronoTestDf rowsRev := by
  refine ⟨by decide, by decide, by decide⟩

/-- C8: the `test_size` parameter of the rating builder is accepted but never used:
for any two values of `test_size` (same input, same latent dimension, same
post-split shuffles) the builder returns identical feature columns and identical
train/test partitions. -/
theorem rating_test_size_unused :
    ∀ (rows : List RatingRow) (latent_dim : Nat) (ts ts' : Rat)
      (st ss : List Nat),
      create_explicit_ml_1m_dataset rows latent_dim ts st ss
        = create_explicit_ml_1m_dataset rows latent_dim ts' st ss :=
  fun _ _ _ _ _ _ => rfl

/-- C10: the rating builder's split partitions the input rows: the train and test
row counts sum to the input row count, and a row index is in the train partition
exactly when it is not in the test partition. -/
theorem rating_split_partitions_rows :
    ∀ (rows : List RatingRow) (latent_dim : Nat) (test_size : Rat)
      (st ss : List Nat),
      st.Perm (List.range (train_df rows).length) →
      ss.Perm (List.range (test_df rows).length) →
      (create_explicit_ml_1m_dataset rows latent_dim test_size st ss).train_y.length
          + (create_explicit_ml_1m_dataset rows latent_dim test_size st ss).test_y.length
          = rows.length
      ∧ ∀ i, i < rows.length →
          (i ∈ (train_df rows).map Prod.fst ↔ i ∉ (test_df rows).map Prod.fst) := by
  intro rows latent_dim test_size st ss hst hss
  have hlen := rating_builder_lengths rows latent_dim test_size st ss hst hss
  constructor
  · rw [hlen.1, hlen.2]
    exact train_test_lengths rows
  · intro i hi
    exact mem_train_idx_iff rows hi

theorem rating_split_partitions_rows_witness :
    (create_explicit_ml_1m_dataset rowsTwoUsers 4 (1 / 5) [0, 1, 2, 3, 4]
          [0, 1]).train_y.length
        + (create_explicit_ml_1m_dataset rowsTwoUsers 4 (1 / 5) [0, 1, 2, 3, 4]
          [0, 1]).test_y.length
        = rowsTwoUsers.length
    ∧ ∀ i, i < rowsTwoUsers.length →
        (i ∈ (train_df rowsTwoUsers).map Prod.fst
          ↔ i ∉ (test_df rowsTwoUsers).map Prod.fst) :=
  rating_split_partitions_rows rowsTwoUsers 4 (1 / 5) [0, 1, 2, 3, 4] [0, 1]
    (by decide) (by decide)

end DatasetPy
